import Mathlib

/-!
Verification of the db_stress harness (tools/db_stress.cc).

This file shallowly embeds the pure computational content of the stress-test
harness and proves the stated properties of it:
  - the value generator GenerateValue                 (tools/db_stress.cc lines 1042 to 1051)
  - the big-endian key codec Key                      (lines 208 to 218)
  - the per-operation classification in OperateDb     (lines 895 to 979)
  - the reopen vote schedule in OperateDb             (lines 874 to 890)
  - the startup validation in main                    (lines 1370 to 1384)
  - the MultiPut lane batch                           (lines 672 to 703)
  - the progress report schedule of
    Stats FinishedSingleOp                            (lines 283 to 305)
  - the vote counter of SharedState                   (lines 437 to 455)
  - the verifier VerifyValue and VerificationAbort    (lines 999 to 1031)

Machine integers are embedded as Nat with explicit truncation where the C code
truncates ("% 256" for a cast to char, "% 2 ^ 32" for uint32).  Byte buffers are
embedded as List Nat of byte values.  The database is embedded at the interface
level the harness sees: a point get is an Option over the returned bytes.
-/

/-! ### Value generator (StressTest GenerateValue)

The C code is

  static size_t GenerateValue(uint32_t rand, char *v, size_t max_sz) \x7b
    size_t value_sz = ((rand % 3) + 1) * FLAGS_value_size_mult;
    assert(value_sz <= max_sz && value_sz >= sizeof(uint32_t));
    *((uint32_t*)v) = rand;
    for (size_t i=sizeof(uint32_t); i < value_sz; i++) \x7b
      v[i] = (char)(rand ^ i);
    \x7d
    v[value_sz] = (char)0;
    return value_sz;
  \x7d

The uint32 store places rand in host order, which on the reference platform is
little endian: byte i (i < 4) holds rand >> (8*i) mod 256.  Each later byte i
holds (rand XOR i) truncated to 8 bits.  The written length is value_sz and a
NUL is placed one byte past it.
-/

/-- Size of the value produced by GenerateValue for multiplier `mult`
(FLAGS_value_size_mult) and 32-bit seed `rand`. -/
def generatedValueSz (mult rand : Nat) : Nat :=
  ((rand % 3) + 1) * mult

/-- The byte content GenerateValue leaves in the first value_sz bytes of the
buffer: bytes 0..3 are the host-order (little-endian) uint32 store of `rand`,
bytes i >= 4 are (rand XOR i) mod 256. -/
def GenerateValue (mult rand : Nat) : List Nat :=
  (List.range (generatedValueSz mult rand)).map (fun i =>
    if i < 4 then rand / 2 ^ (8 * i) % 256
    else (rand ^^^ i) % 256)

/-- GenerateValue guarded by its own assertion
`assert(value_sz <= max_sz && value_sz >= sizeof(uint32_t))`: `none` models the
assertion firing. -/
def GenerateValueChecked (mult maxSz rand : Nat) : Option (List Nat) :=
  if generatedValueSz mult rand ≤ maxSz ∧ 4 ≤ generatedValueSz mult rand then
    some (GenerateValue mult rand)
  else
    none

/-- The proposition checked by the assert inside GenerateValue. -/
def GenerateValueAssertOk (mult maxSz rand : Nat) : Prop :=
  generatedValueSz mult rand ≤ maxSz ∧ 4 ≤ generatedValueSz mult rand

instance (mult maxSz rand : Nat) : Decidable (GenerateValueAssertOk mult maxSz rand) := by
  unfold GenerateValueAssertOk; infer_instance

/-- The buffer indices written by one call of GenerateValue, in program order:
the 4-byte uint32 store covers indices 0..3, the loop covers indices
4..value_sz-1, and the final NUL store covers index value_sz. -/
def GenerateValueWriteIndices (mult rand : Nat) : List Nat :=
  [0, 1, 2, 3] ++ List.range' 4 (generatedValueSz mult rand - 4)
    ++ [generatedValueSz mult rand]

/-- Size of the stack buffers `char value[100]` used in OperateDb (line 865)
and VerifyValue (line 1009). -/
def stressValueBufSize : Nat := 100

/-! ### Key codec (Key, lines 208 to 218)

PutFixed64 serializes a 64-bit value in little-endian order; Key then reverses
the eight bytes, producing the big-endian encoding. -/

/-- PutFixed64: the 8 little-endian bytes of `val`. -/
def putFixed64 (val : Nat) : List Nat :=
  (List.range 8).map (fun i => val / 2 ^ (8 * i) % 256)

/-- Key: the big-endian 8-byte encoding of a logical key, obtained in the
source by byte-reversing the little-endian serialization. -/
def Key (val : Nat) : List Nat :=
  (putFixed64 val).reverse

/-- Lexicographic strict order on byte strings, as memcmp or the byte
comparator orders keys of equal length (a proper strict extension is smaller
only when the shorter list is a strict initial segment). -/
def lexLtB : List Nat → List Nat → Bool
  | [], [] => false
  | [], _ :: _ => true
  | _ :: _, [] => false
  | a :: as, b :: bs => decide (a < b) || (decide (a = b) && lexLtB as bs)

/-- Big-endian byte expansion: `beBytes n v` is the list of the `n` base-256
digits of `v`, most significant first.  `Key` equals `beBytes 8`. -/
def beBytes : Nat → Nat → List Nat
  | 0, _ => []
  | n + 1, val => val / 2 ^ (8 * n) % 256 :: beBytes n val

theorem Key_eq_beBytes (v : Nat) : Key v = beBytes 8 v := rfl

theorem lexLtB_irrefl (l : List Nat) : lexLtB l l = false := by
  induction l with
  | nil => rfl
  | cons a as ih => simp [lexLtB, ih]

theorem beBytes_mod (n : Nat) (val : Nat) :
    beBytes n (val % 2 ^ (8 * n)) = beBytes n val := by
  induction n generalizing val with
  | zero => rfl
  | succ n ih =>
    have hpow : (2 : Nat) ^ (8 * (n + 1)) = 2 ^ (8 * n) * 256 := by
      rw [show 8 * (n + 1) = 8 * n + 8 by ring, pow_add]; norm_num
    have hhead : val % 2 ^ (8 * (n + 1)) / 2 ^ (8 * n) % 256
        = val / 2 ^ (8 * n) % 256 := by
      rw [← Nat.mod_mul_right_div_self, ← Nat.mod_mul_right_div_self, ← hpow,
        Nat.mod_mod_of_dvd val dvd_rfl]
    have htail : beBytes n (val % 2 ^ (8 * (n + 1))) = beBytes n val := by
      have h1 := ih (val % 2 ^ (8 * (n + 1)))
      have h2 : val % 2 ^ (8 * (n + 1)) % 2 ^ (8 * n) = val % 2 ^ (8 * n) := by
        apply Nat.mod_mod_of_dvd
        exact ⟨256, hpow⟩
      rw [h2] at h1
      rw [← h1, ih]
    show val % 2 ^ (8 * (n + 1)) / 2 ^ (8 * n) % 256
          :: beBytes n (val % 2 ^ (8 * (n + 1)))
        = val / 2 ^ (8 * n) % 256 :: beBytes n val
    rw [hhead, htail]

/-- Splitting a natural into quotient and remainder respects order
lexicographically. -/
theorem split_lt_iff (K a b : Nat) (_hK : 0 < K) :
    (a / K < b / K ∨ (a / K = b / K ∧ a % K < b % K)) ↔ a < b := by
  constructor
  · rintro (h | ⟨h1, h2⟩)
    · exact Nat.lt_of_div_lt_div h
    · have ea := Nat.div_add_mod a K
      have eb := Nat.div_add_mod b K
      rw [h1] at ea
      calc a = K * (b / K) + a % K := ea.symm
        _ < K * (b / K) + b % K := Nat.add_lt_add_left h2 _
        _ = b := eb
  · intro hab
    rcases Nat.lt_trichotomy (a / K) (b / K) with h | h | h
    · exact Or.inl h
    · refine Or.inr ⟨h, ?_⟩
      have ea := Nat.div_add_mod a K
      have eb := Nat.div_add_mod b K
      rw [h] at ea
      have hlt : K * (b / K) + a % K < K * (b / K) + b % K := by
        rw [ea, eb]; exact hab
      exact Nat.lt_of_add_lt_add_left hlt
    · exact absurd (Nat.lt_of_div_lt_div h) (by omega)

theorem beBytes_lt_iff (n : Nat) : ∀ a b : Nat, a < 2 ^ (8 * n) → b < 2 ^ (8 * n) →
    (lexLtB (beBytes n a) (beBytes n b) = true ↔ a < b) := by
  induction n with
  | zero =>
    intro a b ha hb
    norm_num at ha hb
    simp [beBytes, lexLtB, ha, hb]
  | succ n ih =>
    intro a b ha hb
    have hpos : 0 < (2 : Nat) ^ (8 * n) := pow_pos (by norm_num) _
    have hpow : (2 : Nat) ^ (8 * (n + 1)) = 2 ^ (8 * n) * 256 := by
      rw [show 8 * (n + 1) = 8 * n + 8 by ring, pow_add]; norm_num
    have hda : a / 2 ^ (8 * n) < 256 := Nat.div_lt_of_lt_mul (hpow ▸ ha)
    have hdb : b / 2 ^ (8 * n) < 256 := Nat.div_lt_of_lt_mul (hpow ▸ hb)
    have htail : (lexLtB (beBytes n a) (beBytes n b) = true)
        ↔ a % 2 ^ (8 * n) < b % 2 ^ (8 * n) := by
      rw [← beBytes_mod n a, ← beBytes_mod n b]
      exact ih _ _ (Nat.mod_lt _ hpos) (Nat.mod_lt _ hpos)
    show (decide (a / 2 ^ (8 * n) % 256 < b / 2 ^ (8 * n) % 256)
        || (decide (a / 2 ^ (8 * n) % 256 = b / 2 ^ (8 * n) % 256)
            && lexLtB (beBytes n a) (beBytes n b))) = true ↔ a < b
    rw [Nat.mod_eq_of_lt hda, Nat.mod_eq_of_lt hdb]
    simp only [Bool.or_eq_true, Bool.and_eq_true, decide_eq_true_eq, htail]
    exact split_lt_iff (2 ^ (8 * n)) a b hpos

/-! ### Shared state: SENTINEL and the reopen vote counter
(SharedState, lines 364 to 511) -/

/-- `SharedState::SENTINEL = 0xffffffff`: the shadow value meaning absent. -/
def SENTINEL : Nat := 0xffffffff

/-- `SharedState::IncVotedReopen`: `vote_reopen_ = (vote_reopen_ + 1) % num_threads_`. -/
def IncVotedReopen (numThreads vote : Nat) : Nat :=
  (vote + 1) % numThreads

/-- `SharedState::AllVotedReopen`: `vote_reopen_ == 0`. -/
def AllVotedReopen (vote : Nat) : Bool :=
  vote == 0

/-- The vote counter after `k` calls of IncVotedReopen, starting from the
constructor value `vote_reopen_(0)`. -/
def voteAfter (numThreads : Nat) : Nat → Nat
  | 0 => 0
  | k + 1 => IncVotedReopen numThreads (voteAfter numThreads k)

/-! ### Reopen vote schedule inside OperateDb (lines 874 to 890)

The per-thread loop is
  for (long i = 0; i < FLAGS_ops_per_thread; i++)
    if (i != 0 && (i % (FLAGS_ops_per_thread / (FLAGS_reopen + 1))) == 0) vote;
Each complete voting round (one vote per thread) wraps the counter to zero and
triggers exactly one reopen, so over the run the number of reopen events
equals the number of voting indices of a single thread. -/

/-- The chunk length `FLAGS_ops_per_thread / (FLAGS_reopen + 1)` (integer
division). -/
def chunkSize (ops reopen : Nat) : Nat :=
  ops / (reopen + 1)

/-- Whether a thread votes for a reopen before executing operation `i`. -/
def votesAt (ops reopen i : Nat) : Bool :=
  i != 0 && i % chunkSize ops reopen == 0

/-- Number of vote (hence reopen) events of a run of `ops` operations
per thread. -/
def numVotes (ops reopen : Nat) : Nat :=
  ((List.range ops).filter (fun i => votesAt ops reopen i)).length

/-! ### Operation classification inside OperateDb (lines 895 to 979)

  int prob_op = thread->rand.Uniform(100);
  if (prob_op >= 0 && prob_op < (int)FLAGS_readpercent)  \x7b read \x7d
  prob_op -= FLAGS_readpercent;
  if (prob_op >= 0 && prob_op < (int)FLAGS_prefixpercent) \x7b scan \x7d
  prob_op -= FLAGS_prefixpercent;
  if (prob_op >= 0 && prob_op < (int)FLAGS_writepercent) \x7b write \x7d
  prob_op -= FLAGS_writepercent;
  if (prob_op >= 0 && prob_op < (int)FLAGS_delpercent)   \x7b delete \x7d

prob_op is a signed int and goes negative after the subtractions, so the
embedding computes with Int.  The four guards, in source order, are returned
as four Booleans (read, scan, write, delete). -/

/-- The four branch guards of the per-operation body, for configured
percentages `readp`, `scanp` (prefixpercent), `writep`, `delp` and a draw
`p` in [0, 100).  The value of prob_op before guard k is p minus the
percentages already subtracted, written out explicitly. -/
def opBranches (readp scanp writep delp p : Nat) : Bool × Bool × Bool × Bool :=
  (decide (0 ≤ (p : Int)) && decide ((p : Int) < (readp : Int)),
   decide (0 ≤ (p : Int) - (readp : Int)) &&
     decide ((p : Int) - (readp : Int) < (scanp : Int)),
   decide (0 ≤ (p : Int) - (readp : Int) - (scanp : Int)) &&
     decide ((p : Int) - (readp : Int) - (scanp : Int) < (writep : Int)),
   decide (0 ≤ (p : Int) - (readp : Int) - (scanp : Int) - (writep : Int)) &&
     decide ((p : Int) - (readp : Int) - (scanp : Int) - (writep : Int)
       < (delp : Int)))

/-! ### Startup validation in main (lines 1370 to 1384)

Three checks run after flag parsing and before any database work; each failing
check prints a diagnostic and calls exit(1). -/

/-- The startup validation block: `some 1` is termination with exit code 1,
`none` is passing on to the stress run. -/
def startupValidation (readp scanp writep delp : Nat) (disableWal : Bool)
    (reopen ops : Nat) : Option Nat :=
  if readp + scanp + writep + delp ≠ 100 then some 1
  else if disableWal = true ∧ 0 < reopen then some 1
  else if ops ≤ reopen then some 1
  else none

/-! ### MultiPut (lines 672 to 703)

MultiPut builds one WriteBatch holding, for each lane digit, a Put (or a Merge
when FLAGS_use_merge_put) of key digit+K with value digit+V, then submits the
batch with a single db write call. -/

/-- One step recorded into the WriteBatch.  Key and value strings are
embedded as character lists. -/
inductive BatchOp where
  | put (key value : List Char)
  | merge (key value : List Char)
deriving DecidableEq

/-- A database call made by the harness; MultiPut makes exactly one. -/
inductive DbCall where
  | write (batch : List BatchOp)
deriving DecidableEq

/-- The lane digits in the order the MultiPut loop visits them (the source
initializes the local keys and values arrays from digit 9 down to 0). -/
def laneDigits : List Char :=
  ['9', '8', '7', '6', '5', '4', '3', '2', '1', '0']

/-- The batch entry MultiPut records for lane digit `d`: digit+K with
digit+V, as a Merge when FLAGS_use_merge_put and a Put otherwise. -/
def laneEntry (useMergePut : Bool) (key value : List Char) (d : Char) : BatchOp :=
  if useMergePut then BatchOp.merge (d :: key) (d :: value)
  else BatchOp.put (d :: key) (d :: value)

/-- The WriteBatch built by MultiPut. -/
def MultiPutBatch (useMergePut : Bool) (key value : List Char) : List BatchOp :=
  laneDigits.map (laneEntry useMergePut key value)

/-- The database calls MultiPut performs: one write of the whole batch. -/
def MultiPutCalls (useMergePut : Bool) (key value : List Char) : List DbCall :=
  [DbCall.write (MultiPutBatch useMergePut key value)]

/-! ### Stats progress report schedule (FinishedSingleOp, lines 283 to 305) -/

/-- The per-thread counters FinishedSingleOp touches: done_ and next_report_.
`Stats::Start` sets done_ to 0 and next_report_ to 100. -/
structure StatsState where
  done : Nat
  nextReport : Nat
deriving DecidableEq

/-- The state Stats Start leaves behind. -/
def statsStart : StatsState := { done := 0, nextReport := 100 }

/-- The threshold bump ladder of FinishedSingleOp. -/
def bumpNext (next : Nat) : Nat :=
  if next < 1000 then next + 100
  else if next < 5000 then next + 500
  else if next < 10000 then next + 1000
  else if next < 50000 then next + 5000
  else if next < 100000 then next + 10000
  else if next < 500000 then next + 50000
  else next + 100000

/-- One call of FinishedSingleOp: increments done_, and when done_ has reached
next_report_ bumps the threshold and prints a progress line (the returned
Boolean). -/
def FinishedSingleOp (s : StatsState) : StatsState × Bool :=
  if s.nextReport ≤ s.done + 1 then
    ({ done := s.done + 1, nextReport := bumpNext s.nextReport }, true)
  else
    ({ done := s.done + 1, nextReport := s.nextReport }, false)

/-- The report thresholds in order: 100, 200, ..., the k-th value
next_report_ takes. -/
def nthThreshold : Nat → Nat
  | 0 => 100
  | k + 1 => bumpNext (nthThreshold k)

/-! ### Verifier (VerificationAbort lines 999 to 1003, VerifyValue lines
1005 to 1031)

VerifyValue reads the shadow base for the key, possibly returns early, issues
one point get against the database and aborts the process on any divergence.
The database get is embedded as `Option (List Nat)`: `some v` when the status
is OK with value bytes `v`, `none` when it is not OK (not-found or error). -/

/-- The diagnostic message of a verification abort. -/
inductive AbortMsg where
  | unexpectedValueFound
  | lengthMismatch
  | contentsMismatch
  | valueNotFound
deriving DecidableEq

/-- What VerificationAbort does: record the message and the key, and exit the
process with status 1. -/
structure AbortInfo where
  msg : AbortMsg
  key : Nat
  exitCode : Nat
deriving DecidableEq

/-- `StressTest::VerificationAbort`: prints the key and message, exits with 1. -/
def VerificationAbort (msg : AbortMsg) (key : Nat) : AbortInfo :=
  { msg := msg, key := key, exitCode := 1 }

/-- Outcome of one VerifyValue call.  `earlyReturn` is the path taken before
the database is consulted; `passed` falls through all checks; `aborted`
carries the VerificationAbort. -/
inductive VerifyOutcome where
  | earlyReturn
  | passed
  | aborted (a : AbortInfo)
deriving DecidableEq

/-- `StressTest::VerifyValue` for logical key `key` whose shadow entry is
`base`, with multiplier `mult` (FLAGS_value_size_mult) and the database point
get result `dbGet`. -/
def verifyGet (mult key base : Nat) : Option (List Nat) → VerifyOutcome
  | some v =>
      if base = SENTINEL then
        VerifyOutcome.aborted (VerificationAbort AbortMsg.unexpectedValueFound key)
      else if v.length ≠ (GenerateValue mult base).length then
        VerifyOutcome.aborted (VerificationAbort AbortMsg.lengthMismatch key)
      else if v.take (GenerateValue mult base).length ≠ GenerateValue mult base then
        VerifyOutcome.aborted (VerificationAbort AbortMsg.contentsMismatch key)
      else VerifyOutcome.passed
  | none =>
      if base ≠ SENTINEL then
        VerifyOutcome.aborted (VerificationAbort AbortMsg.valueNotFound key)
      else VerifyOutcome.passed

def VerifyValue (mult key base : Nat) (strict : Bool)
    (dbGet : Option (List Nat)) : VerifyOutcome :=
  if base = SENTINEL ∧ strict = false then VerifyOutcome.earlyReturn
  else verifyGet mult key base dbGet

/-! ## Claim theorems -/

/-- Helper: indexing into the bytes GenerateValue produces. -/
theorem generateValue_getElem (mult base i : Nat) :
    (GenerateValue mult base)[i]? =
      if i < generatedValueSz mult base then
        some (if i < 4 then base / 2 ^ (8 * i) % 256 else (base ^^^ i) % 256)
      else none := by
  unfold GenerateValue
  rcases Nat.lt_or_ge i (generatedValueSz mult base) with h | h
  · rw [List.getElem?_map, List.getElem?_range h, if_pos h]
    rfl
  · rw [List.getElem?_map, List.getElem?_eq_none (by simpa using h), if_neg (by omega)]
    rfl

/-- Claim C2.  Value generator: for every 32-bit base and every
value_size_mult, GenerateValue is deterministic (the same base always yields
byte-identical output of the same length), returns length
((base mod 3) + 1) * value_size_mult, asserts that the length is at least 4
and at most the buffer capacity, stores base in the first 4 bytes in host
order (little endian on the reference platform), and sets every byte at index
i >= 4 to (base XOR i) truncated to 8 bits. -/
theorem generate_value_correct (mult maxSz base : Nat) :
    (GenerateValue mult base).length = ((base % 3) + 1) * mult ∧
    (∀ base2 : Nat, base2 = base →
        GenerateValue mult base2 = GenerateValue mult base) ∧
    ((GenerateValueChecked mult maxSz base).isSome = true ↔
        4 ≤ ((base % 3) + 1) * mult ∧ ((base % 3) + 1) * mult ≤ maxSz) ∧
    (GenerateValueChecked mult maxSz base = some (GenerateValue mult base) ∨
        GenerateValueChecked mult maxSz base = none) ∧
    (∀ i, i < 4 →
        (GenerateValue mult base)[i]? =
          if i < ((base % 3) + 1) * mult then some (base / 2 ^ (8 * i) % 256)
          else none) ∧
    (∀ i, 4 ≤ i →
        (GenerateValue mult base)[i]? =
          if i < ((base % 3) + 1) * mult then some ((base ^^^ i) % 256)
          else none) := by
  refine ⟨?_, ?_, ?_, ?_, ?_, ?_⟩
  · simp [GenerateValue, generatedValueSz]
  · intro base2 h; rw [h]
  · unfold GenerateValueChecked generatedValueSz
    split <;> simp_all <;> omega
  · unfold GenerateValueChecked
    split
    · exact Or.inl rfl
    · exact Or.inr rfl
  · intro i hi
    rw [generateValue_getElem]
    unfold generatedValueSz
    split <;> simp [hi]
  · intro i hi
    have h4 : ¬ i < 4 := by omega
    rw [generateValue_getElem]
    unfold generatedValueSz
    split <;> simp [h4]

/-- Claim C7.  GenerateValue writes a NUL terminator at index value_sz, one
byte beyond the returned length, which the internal assertion
value_sz <= max_sz does not cover (exhibited at mult = 50, base = 1, where
the assertion holds for the 100-byte buffer but the NUL lands at index 100);
for every base, all writes performed by GenerateValue (including that NUL)
stay within the 100-byte buffers used by OperateDb and VerifyValue and the
assertion value_sz >= 4 and value_sz <= max_sz holds, exactly when
4 <= value_size_mult and 3 * value_size_mult < 100. -/
theorem generate_value_buffer_bounds (mult : Nat) :
    ((∀ base, (∀ i ∈ GenerateValueWriteIndices mult base, i < stressValueBufSize) ∧
        GenerateValueAssertOk mult stressValueBufSize base)
      ↔ (4 ≤ mult ∧ 3 * mult < 100)) ∧
    (∀ base, generatedValueSz mult base ∈ GenerateValueWriteIndices mult base ∧
        (GenerateValue mult base).length = generatedValueSz mult base) ∧
    GenerateValueAssertOk 50 stressValueBufSize 1 ∧
    ¬ (∀ i ∈ GenerateValueWriteIndices 50 1, i < stressValueBufSize) := by
  refine ⟨⟨?_, ?_⟩, ?_, by decide, by decide⟩
  · intro h
    have h0 := h 0
    have h2 := h 2
    have ha : generatedValueSz mult 0 = mult := by
      simp [generatedValueSz]
    have hb : generatedValueSz mult 2 = 3 * mult := by
      norm_num [generatedValueSz]
    constructor
    · have := h0.2.2
      omega
    · have hmem : generatedValueSz mult 2 ∈ GenerateValueWriteIndices mult 2 := by
        simp [GenerateValueWriteIndices]
      have := h2.1 _ hmem
      simp only [stressValueBufSize] at this
      omega
  · rintro ⟨h4, h99⟩ base
    have hm3 : base % 3 < 3 := Nat.mod_lt _ (by norm_num)
    have hsz1 : mult ≤ generatedValueSz mult base := by
      unfold generatedValueSz
      exact Nat.le_mul_of_pos_left mult (by omega)
    have hsz2 : generatedValueSz mult base ≤ 3 * mult := by
      unfold generatedValueSz
      exact Nat.mul_le_mul_right mult (by omega)
    refine ⟨?_, ?_, ?_⟩
    · intro i hi
      simp only [GenerateValueWriteIndices, List.mem_append, List.mem_cons,
        List.not_mem_nil, or_false, List.mem_range'_1] at hi
      unfold stressValueBufSize
      omega
    · unfold stressValueBufSize
      omega
    · omega
  · intro base
    constructor
    · simp [GenerateValueWriteIndices]
    · simp [GenerateValue]

/-- Claim C4.  Key codec monotonicity: for every pair of logical keys a, b
with a < b (both representable in 64 bits), the 8-byte big-endian encoding
Key(a) is strictly less than Key(b) in lexicographic byte order, and the
encoding is reversible (injective). -/
theorem key_monotone_injective (a b : Nat) (ha : a < 2 ^ 64) (hb : b < 2 ^ 64) :
    (a < b → lexLtB (Key a) (Key b) = true) ∧ (Key a = Key b → a = b) := by
  have ha8 : a < 2 ^ (8 * 8) := ha
  have hb8 : b < 2 ^ (8 * 8) := hb
  constructor
  · intro hab
    rw [Key_eq_beBytes, Key_eq_beBytes]
    exact (beBytes_lt_iff 8 a b ha8 hb8).mpr hab
  · intro he
    rcases Nat.lt_trichotomy a b with h | h | h
    · exfalso
      have := (beBytes_lt_iff 8 a b ha8 hb8).mpr h
      rw [← Key_eq_beBytes, ← Key_eq_beBytes, he, lexLtB_irrefl] at this
      exact Bool.false_ne_true this
    · exact h
    · exfalso
      have := (beBytes_lt_iff 8 b a hb8 ha8).mpr h
      rw [← Key_eq_beBytes, ← Key_eq_beBytes, he, lexLtB_irrefl] at this
      exact Bool.false_ne_true this

/-- Witness for C4 at a = 3, b = 5. -/
theorem key_monotone_injective_witness :
    3 < 5 ∧ lexLtB (Key 3) (Key 5) = true :=
  ⟨by norm_num,
   (key_monotone_injective 3 5 (by norm_num) (by norm_num)).1 (by norm_num)⟩

/-- Claim C1.  Verifier correctness of VerifyValue: given shadow base for the
key, if the database get returns OK then passing the check requires (and
suffices, given the early-return guard is not taken) that base is not
SENTINEL and the returned bytes equal GenerateValue(base) in length and
content; if the get does not return OK, passing requires base = SENTINEL;
when base is SENTINEL and strict is false the check returns early, before
and independently of the database get; every violation produces a
VerificationAbort carrying the key and a non-zero exit status. -/
theorem verify_value_correct (mult key base : Nat) (strict : Bool)
    (dbGet : Option (List Nat)) :
    (base = SENTINEL → strict = false →
        VerifyValue mult key base strict dbGet = VerifyOutcome.earlyReturn) ∧
    (∀ v, dbGet = some v → ¬(base = SENTINEL ∧ strict = false) →
        (VerifyValue mult key base strict dbGet = VerifyOutcome.passed ↔
          base ≠ SENTINEL ∧ v.length = (GenerateValue mult base).length ∧
            v = GenerateValue mult base)) ∧
    (dbGet = none → ¬(base = SENTINEL ∧ strict = false) →
        (VerifyValue mult key base strict dbGet = VerifyOutcome.passed ↔
          base = SENTINEL)) ∧
    (∀ a, VerifyValue mult key base strict dbGet = VerifyOutcome.aborted a →
        a.key = key ∧ a.exitCode ≠ 0) := by
  refine ⟨?_, ?_, ?_, ?_⟩
  · intro h1 h2
    unfold VerifyValue
    rw [if_pos ⟨h1, h2⟩]
  · intro v hv hns
    subst hv
    unfold VerifyValue
    rw [if_neg hns]
    show verifyGet mult key base (some v) = VerifyOutcome.passed ↔ _
    simp only [verifyGet]
    by_cases hb : base = SENTINEL
    · simp [hb]
    · rw [if_neg hb]
      by_cases hlen : v.length = (GenerateValue mult base).length
      · rw [if_neg (by simpa using hlen)]
        have htake : v.take (GenerateValue mult base).length = v := by
          rw [← hlen]
          exact List.take_length v
        rw [htake]
        by_cases heq : v = GenerateValue mult base
        · rw [if_neg (by simpa using heq)]
          simp [hb, hlen, heq]
        · rw [if_pos heq]
          simp [heq]
      · rw [if_pos hlen]
        simp [hlen]
  · intro hn hns
    subst hn
    unfold VerifyValue
    rw [if_neg hns]
    show verifyGet mult key base none = VerifyOutcome.passed ↔ _
    simp only [verifyGet]
    by_cases hb : base = SENTINEL
    · simp [hb]
    · simp [hb]
  · intro a ha
    rcases dbGet with _ | v <;> simp only [VerifyValue, verifyGet] at ha
    · split at ha
      · cases ha
      · split at ha
        · cases ha
          exact ⟨rfl, by simp [VerificationAbort]⟩
        · cases ha
    · split at ha
      · cases ha
      · split at ha
        · cases ha
          exact ⟨rfl, by simp [VerificationAbort]⟩
        · split at ha
          · cases ha
            exact ⟨rfl, by simp [VerificationAbort]⟩
          · split at ha
            · cases ha
              exact ⟨rfl, by simp [VerificationAbort]⟩
            · cases ha

/-- Helper for C3: count of the positive multiples of `c` below `n`. -/
def countMult (c n : Nat) : Nat :=
  ((List.range n).filter (fun i => i != 0 && i % c == 0)).length

theorem countMult_succ (c n : Nat) :
    countMult c (n + 1) = countMult c n + (if n ≠ 0 ∧ n % c = 0 then 1 else 0) := by
  unfold countMult
  rw [List.range_succ, List.filter_append, List.length_append]
  congr 1
  rw [List.filter_singleton]
  by_cases h1 : n = 0
  · subst h1
    simp
  · by_cases h2 : n % c = 0
    · have ht : (n != 0 && n % c == 0) = true := by simp [h1, h2]
      rw [ht, if_pos ⟨h1, h2⟩]
      rfl
    · have hf : (n != 0 && n % c == 0) = false := by simp [h2]
      rw [hf, if_neg (by tauto)]
      rfl

theorem countMult_eq (c n : Nat) : countMult c n = (n - 1) / c := by
  induction n with
  | zero => simp [countMult]
  | succ n ih =>
    rw [countMult_succ, ih]
    rcases Nat.eq_zero_or_pos n with h0 | hpos
    · subst h0
      simp
    · have h1 : n - 1 + 1 = n := by omega
      have h2 : n + 1 - 1 = n := by omega
      rw [h2, ← h1, Nat.succ_div, h1]
      by_cases hdvd : c ∣ n
      · rw [if_pos hdvd, if_pos ⟨by omega, Nat.dvd_iff_mod_eq_zero.mp hdvd⟩]
      · rw [if_neg hdvd, if_neg ?_]
        rintro ⟨-, hmod⟩
        exact hdvd (Nat.dvd_iff_mod_eq_zero.mpr hmod)

/-- Counterexample to claim C3 as stated: with ops_per_thread = 10 and
reopen = 3 (a configuration with 0 <= reopen < ops_per_thread), the chunk
length is 10 / 4 = 2 and a thread votes at i = 2, 4, 6, 8, so the run
performs 4 reopen events, not 3. -/
theorem reopen_count_counterexample :
    3 < 10 ∧ numVotes 10 3 = 4 ∧ numVotes 10 3 ≠ 3 := by decide

/-- Claim C3, amended.  When (reopen+1) divides ops_per_thread (and
reopen < ops_per_thread), the OPERATE loop is partitioned into reopen+1
chunks of equal op-count ops_per_thread/(reopen+1) per thread; each thread
votes exactly at the operation indices i in [1, ops_per_thread) with
i mod (ops_per_thread / (reopen+1)) == 0, so the number of reopen events
over the whole run equals reopen exactly.  (Without the divisibility
condition the number of events is floor((ops-1) / floor(ops/(reopen+1))),
which exceeds reopen; see the counterexample.) -/
theorem reopen_votes_amended (ops reopen : Nat) (hdvd : (reopen + 1) ∣ ops)
    (hlt : reopen < ops) :
    numVotes ops reopen = reopen ∧
    (∀ i, votesAt ops reopen i = true ↔
        i ≠ 0 ∧ i % (ops / (reopen + 1)) = 0) := by
  obtain ⟨c, hc⟩ := hdvd
  have hcpos : 0 < c := by
    rcases Nat.eq_zero_or_pos c with h | h
    · subst h
      omega
    · exact h
  have hchunk : chunkSize ops reopen = c := by
    unfold chunkSize
    rw [hc]
    exact Nat.mul_div_cancel_left c (by omega)
  constructor
  · have he : numVotes ops reopen = countMult (chunkSize ops reopen) ops := rfl
    rw [he, countMult_eq, hchunk, hc]
    have e0 : (reopen + 1) * c = reopen * c + c := by ring
    have e1 : (reopen + 1) * c - 1 = c - 1 + c * reopen := by
      rw [e0, Nat.mul_comm reopen c]
      omega
    rw [e1, Nat.add_mul_div_left _ _ hcpos, Nat.div_eq_of_lt (by omega)]
    omega
  · intro i
    simp [votesAt, chunkSize]

/-- Witness for the amended C3 at ops_per_thread = 8, reopen = 3. -/
theorem reopen_votes_amended_witness :
    (3 + 1) ∣ 8 ∧ 3 < 8 ∧ numVotes 8 3 = 3 :=
  ⟨by decide, by decide, (reopen_votes_amended 8 3 (by decide) (by decide)).1⟩

/-- Helper for C5: the four guards evaluate to the cumulative ranges. -/
theorem opBranches_eq (readp scanp writep delp p : Nat) :
    opBranches readp scanp writep delp p =
      (decide (p < readp),
       decide (readp ≤ p ∧ p < readp + scanp),
       decide (readp + scanp ≤ p ∧ p < readp + scanp + writep),
       decide (readp + scanp + writep ≤ p ∧
         p < readp + scanp + writep + delp)) := by
  unfold opBranches
  simp only [Prod.mk.injEq]
  refine ⟨?_, ?_, ?_, ?_⟩ <;>
    · rw [← Bool.decide_and]
      exact decide_eq_decide.mpr (by omega)

/-- Claim C5.  Operation classification: for every draw p in [0, 100), under
the precondition readpercent + prefixpercent + writepercent + delpercent
= 100, exactly one of the four operation branches executes, and it is the
one selected by the cumulative ranges in the fixed order Read, Scan
(prefix), Write, Delete. -/
theorem op_classification (readp scanp writep delp p : Nat)
    (hsum : readp + scanp + writep + delp = 100) (hp : p < 100) :
    ((opBranches readp scanp writep delp p).1 = true ↔ p < readp) ∧
    ((opBranches readp scanp writep delp p).2.1 = true ↔
        readp ≤ p ∧ p < readp + scanp) ∧
    ((opBranches readp scanp writep delp p).2.2.1 = true ↔
        readp + scanp ≤ p ∧ p < readp + scanp + writep) ∧
    ((opBranches readp scanp writep delp p).2.2.2 = true ↔
        readp + scanp + writep ≤ p ∧ p < 100) ∧
    ((opBranches readp scanp writep delp p).1 = true ∨
      (opBranches readp scanp writep delp p).2.1 = true ∨
      (opBranches readp scanp writep delp p).2.2.1 = true ∨
      (opBranches readp scanp writep delp p).2.2.2 = true) ∧
    ((opBranches readp scanp writep delp p).1 = true →
      (opBranches readp scanp writep delp p).2.1 = false ∧
      (opBranches readp scanp writep delp p).2.2.1 = false ∧
      (opBranches readp scanp writep delp p).2.2.2 = false) ∧
    ((opBranches readp scanp writep delp p).2.1 = true →
      (opBranches readp scanp writep delp p).2.2.1 = false ∧
      (opBranches readp scanp writep delp p).2.2.2 = false) ∧
    ((opBranches readp scanp writep delp p).2.2.1 = true →
      (opBranches readp scanp writep delp p).2.2.2 = false) := by
  rw [opBranches_eq]
  refine ⟨by simp, by simp, by simp, ?_, ?_, ?_, ?_, ?_⟩
  · simp only [decide_eq_true_eq]
    constructor <;> intro h <;> omega
  · simp only [decide_eq_true_eq]
    omega
  all_goals
    simp only [decide_eq_true_eq, decide_eq_false_iff_not]
    intro h
    omega

/-- Witness for C5 at the default percentages 10/25/50/15 and draw p = 60,
which selects the write branch. -/
theorem op_classification_witness :
    10 + 25 + 50 + 15 = 100 ∧ 60 < 100 ∧
      ((opBranches 10 25 50 15 60).2.2.1 = true ↔
        10 + 25 ≤ 60 ∧ 60 < 10 + 25 + 50) :=
  ⟨by decide, by decide,
   (op_classification 10 25 50 15 60 (by decide) (by decide)).2.2.1⟩

/-- Claim C6.  Startup validation: the validation block terminates the
process with exit code 1 before any database work begins if and only if the
four workload percentages do not sum to exactly 100, or WAL is disabled
while reopen > 0, or reopen >= ops_per_thread; when all three constraints
hold it passes. -/
theorem startup_validation_correct (readp scanp writep delp : Nat)
    (disableWal : Bool) (reopen ops : Nat) :
    (startupValidation readp scanp writep delp disableWal reopen ops = some 1 ↔
        (readp + scanp + writep + delp ≠ 100 ∨
          (disableWal = true ∧ 0 < reopen) ∨ ops ≤ reopen)) ∧
    (startupValidation readp scanp writep delp disableWal reopen ops = none ↔
        (readp + scanp + writep + delp = 100 ∧
          (disableWal = true → reopen = 0) ∧ reopen < ops)) := by
  have hiff : (disableWal = true → reopen = 0) ↔
      ¬(disableWal = true ∧ 0 < reopen) := by
    constructor
    · rintro h ⟨hw, hr⟩
      have := h hw
      omega
    · intro h hw
      by_contra hne
      exact h ⟨hw, by omega⟩
  rw [hiff]
  unfold startupValidation
  by_cases h1 : readp + scanp + writep + delp = 100 <;>
    by_cases h2 : disableWal = true ∧ 0 < reopen <;>
      by_cases h3 : ops ≤ reopen <;>
        simp [h1, h2, h3] <;> omega

/-- Claim C8.  MultiPut lane structure: for every key K and value V, the
write batch built by MultiPut contains exactly ten entries, one per lane
digit in 0..9 (the batch is duplicate-free), each entry putting (or merging,
when use_merge_put is set) key d+K with value d+V so that the key and value
lane digits agree, and all ten entries are submitted in a single db
write(batch) call. -/
theorem multi_put_lanes (useMergePut : Bool) (K V : List Char) :
    (MultiPutBatch useMergePut K V).length = 10 ∧
    (MultiPutBatch useMergePut K V).Nodup ∧
    (∀ d, d ∈ ['0', '1', '2', '3', '4', '5', '6', '7', '8', '9'] →
        laneEntry useMergePut K V d ∈ MultiPutBatch useMergePut K V) ∧
    (∀ e, e ∈ MultiPutBatch useMergePut K V →
        ∃ d, d ∈ ['0', '1', '2', '3', '4', '5', '6', '7', '8', '9'] ∧
          e = laneEntry useMergePut K V d) ∧
    MultiPutCalls useMergePut K V =
      [DbCall.write (MultiPutBatch useMergePut K V)] := by
  have hinj : Function.Injective (laneEntry useMergePut K V) := by
    intro d1 d2 h
    cases useMergePut <;> simp [laneEntry] at h <;> exact h
  refine ⟨?_, ?_, ?_, ?_, rfl⟩
  · simp [MultiPutBatch, laneDigits]
  · exact List.Nodup.map hinj (by decide)
  · intro d hd
    apply List.mem_map_of_mem
    fin_cases hd <;> decide
  · intro e he
    obtain ⟨d, hd, hde⟩ := List.mem_map.mp he
    refine ⟨d, ?_, hde.symm⟩
    fin_cases hd <;> decide

/-- Counterexample to claim C9 as stated: the report thresholds go
100, 200, ..., and after the threshold 500 is reached the next threshold is
600, i.e. the bump size at op count 500 is still 100, not 500: the bump
sizes do not change at the op counts 100, 500, 1000, ... but at the
thresholds 1000, 5000, 10000, 50000, 100000, 500000. -/
theorem report_schedule_counterexample :
    nthThreshold 4 = 500 ∧ nthThreshold 5 = 600 ∧ nthThreshold 5 ≠ 1000 ∧
      bumpNext 500 = 600 ∧ bumpNext 500 ≠ 1000 := by decide

/-- Claim C9, amended.  Starting from a first report threshold of 100,
FinishedSingleOp prints a progress line exactly when the per-thread
completed-op count reaches the current threshold, and the thresholds widen
exponentially with bump sizes 100, 500, 1000, 5000, 10000, 50000, 100000,
the bump size changing at threshold values 1000, 5000, 10000, 50000, 100000
and 500000 (not at op counts 100, 500, ..., as the claim stated). -/
theorem finished_op_schedule_amended :
    statsStart.nextReport = 100 ∧ statsStart.done = 0 ∧
    (∀ s : StatsState, ((FinishedSingleOp s).2 = true ↔
        s.nextReport ≤ s.done + 1)) ∧
    (∀ s : StatsState, (FinishedSingleOp s).1.done = s.done + 1) ∧
    (∀ s : StatsState, (FinishedSingleOp s).2 = true →
        (FinishedSingleOp s).1.nextReport = bumpNext s.nextReport) ∧
    (∀ s : StatsState, (FinishedSingleOp s).2 = false →
        (FinishedSingleOp s).1.nextReport = s.nextReport) ∧
    (∀ n, n < 1000 → bumpNext n = n + 100) ∧
    (∀ n, 1000 ≤ n → n < 5000 → bumpNext n = n + 500) ∧
    (∀ n, 5000 ≤ n → n < 10000 → bumpNext n = n + 1000) ∧
    (∀ n, 10000 ≤ n → n < 50000 → bumpNext n = n + 5000) ∧
    (∀ n, 50000 ≤ n → n < 100000 → bumpNext n = n + 10000) ∧
    (∀ n, 100000 ≤ n → n < 500000 → bumpNext n = n + 50000) ∧
    (∀ n, 500000 ≤ n → bumpNext n = n + 100000) := by
  refine ⟨rfl, rfl, ?_, ?_, ?_, ?_, ?_, ?_, ?_, ?_, ?_, ?_, ?_⟩
  · intro s
    unfold FinishedSingleOp
    split <;> simp_all
  · intro s
    unfold FinishedSingleOp
    split <;> rfl
  · intro s h
    unfold FinishedSingleOp at h ⊢
    split at h
    · rw [if_pos (by omega)]
    · cases h
  · intro s h
    unfold FinishedSingleOp at h ⊢
    split at h
    · cases h
    · rw [if_neg (by omega)]
  all_goals (intro n; unfold bumpNext; split_ifs <;> omega)

/-- Claim C10.  Reopen vote counter invariant: vote_reopen starts at 0 and
every IncVotedReopen maps it to (vote_reopen + 1) mod num_threads, so every
reachable state is in [0, num_threads), and AllVotedReopen holds after an
increment exactly when the total number of increments since creation is a
(positive) multiple of num_threads. -/
theorem vote_reopen_invariant (numThreads k : Nat) (h : 0 < numThreads) :
    voteAfter numThreads k = k % numThreads ∧
    voteAfter numThreads k < numThreads ∧
    voteAfter numThreads (k + 1) =
      IncVotedReopen numThreads (voteAfter numThreads k) ∧
    (0 < k → (AllVotedReopen (voteAfter numThreads k) = true ↔
        numThreads ∣ k)) := by
  have hmod : ∀ m, voteAfter numThreads m = m % numThreads := by
    intro m
    induction m with
    | zero => simp [voteAfter]
    | succ m ih =>
      show (voteAfter numThreads m + 1) % numThreads = (m + 1) % numThreads
      rw [ih, Nat.add_mod m 1, Nat.add_mod (m % numThreads) 1,
        Nat.mod_mod_of_dvd m (dvd_refl numThreads)]
  refine ⟨hmod k, ?_, rfl, ?_⟩
  · rw [hmod k]
    exact Nat.mod_lt _ h
  · intro hk
    rw [hmod k]
    simp only [AllVotedReopen, beq_iff_eq]
    exact Nat.dvd_iff_mod_eq_zero.symm

/-- Witness for C10 at num_threads = 3 after 6 increments. -/
theorem vote_reopen_invariant_witness :
    0 < 3 ∧ AllVotedReopen (voteAfter 3 6) = true :=
  ⟨by decide,
   ((vote_reopen_invariant 3 6 (by decide)).2.2.2 (by decide)).mpr (by decide)⟩
